import Mathlib

/-!
Verification development for the connection-management core of the
monero-javascript repository (src/main/js/common/MoneroConnectionManager.js).

The JavaScript class `MoneroConnectionManager` is shallowly embedded here.
JavaScript object identity is modelled by a numeric id (`cid`): two in-memory
`MoneroRpcConnection` objects are `===`-equal exactly when their `cid`s agree,
and the manager's `_currentConnection` field is modelled as the `cid` of the
referenced object (in-place mutation of a connection is modelled by rewriting
the registry entry carrying that `cid`).

The collaborator `MoneroRpcConnection` and the utility module `GenUtils` are
not part of the provided sources; where their behaviour decides a claim they
are modelled from the spec (each such definition carries a doc comment
starting with "Modelled from the spec:").
-/

/-- Errors thrown by the embedded code. `MoneroError` instances are split by
their message; `referenceErrorConnections` is the JavaScript `ReferenceError`
raised by evaluating the unbound identifier `connections` in
`removeConnection` (line 63); `typeErrorProbe` is the `TypeError` raised by
calling `.checkConnection` on a value that is an array rather than a
connection; `aggregateError` is the rejection of `Promise.any` when every
constituent promise rejects; `transportError` stands for a probe promise that
rejects with a network-level error; `unhealthyProbe` stands for the bare
`reject()` issued when a checked connection is not online/authenticated. -/
inductive JsErr where
  | duplicateUriError
  | unknownUriError
  | referenceErrorConnections
  | typeErrorProbe
  | aggregateError
  | transportError
  | unhealthyProbe
deriving Repr, DecidableEq

/-- A `MoneroRpcConnection` object. `cid` is the JavaScript object identity.
`online` and `authStatus` are the tri-state results of the last health check
(`undefined` = `none`). `checkTarget` is the oracle describing what the next
`checkConnection` call observes: `none` means the check's promise rejects
(transport failure escaping the collaborator), `some (o, a)` means the check
resolves after setting `isOnline` to `o` and `isAuthenticated` to `a`. -/
structure Conn where
  cid : Nat
  uri : String
  username : Option String
  password : Option String
  priority : Nat
  online : Option Bool
  authStatus : Option Bool
  checkTarget : Option (Option Bool × Option Bool)
deriving Repr, DecidableEq

/-- The mutable state of a `MoneroConnectionManager`: the `_connections`
array (in insertion order), the `_currentConnection` reference (as the `cid`
of the referenced object, or `none` for `undefined`) and the `_autoSwitch`
flag. -/
structure MgrState where
  connections : List Conn
  current : Option Nat
  autoSwitch : Bool
deriving Repr, DecidableEq

def cidsOf (conns : List Conn) : List Nat := conns.map (fun c => c.cid)

def urisOf (conns : List Conn) : List String := conns.map (fun c => c.uri)

/-- Embeds `getConnectionByUri(uri)`: first connection whose URI matches, or
`undefined`. -/
def findByUri (conns : List Conn) (u : String) : Option Conn :=
  conns.find? (fun c => c.uri == u)

/-- Embeds `addConnection(connection)`: scans `_connections` for a URI match
and throws `MoneroError("Connection URI already exists")` on a hit, otherwise
pushes the connection. The second component is the thrown error, if any; on a
throw the state is returned unchanged because the throw happens before the
push. -/
def addConnection (s : MgrState) (c : Conn) : MgrState × Option JsErr :=
  if s.connections.any (fun a => a.uri == c.uri) then
    (s, some JsErr.duplicateUriError)
  else
    ({ s with connections := s.connections ++ [c] }, none)

/-- Embeds `removeConnection(uri)` exactly as written in the source. When the
lookup fails it throws `MoneroError("No connection exists with URI: ...")`.
When the lookup succeeds the next statement is
`GenUtils.remove(connections, connection)` — the identifier `connections` is
unbound in that scope (the field is `this._connections`), so evaluating it
raises a `ReferenceError` before anything is mutated; the removal and the
clearing of `_currentConnection` on lines 63-64 are never reached. -/
def removeConnection (s : MgrState) (u : String) : MgrState × Option JsErr :=
  match findByUri s.connections u with
  | none => (s, some JsErr.unknownUriError)
  | some _ => (s, some JsErr.referenceErrorConnections)

/-- Modelled from the spec: `MoneroRpcConnection.setCredentials(user, secret)`
(the collaborator is not under src/) overwrites the stored credentials (§6).
`updateCred conns i u p` performs that in-place mutation on the object with
identity `i`. -/
def updateCred (conns : List Conn) (i : Nat) (u p : Option String) : List Conn :=
  conns.map (fun x => if x.cid == i then { x with username := u, password := p } else x)

/-- Embeds the connection-object branch of `setConnection` (lines 167-196).
Returns the new state and whether `_onConnectionChanged` was invoked.
The update guard on line 190 is reproduced exactly as written:
`prevConnection !== this._currentConnection || prevConnection.getUsername()
!== connection.getUsername() || connection.getPassword() !==
connection.getPassword()` — the final disjunct compares the argument's
password with itself and is therefore always false, so it is omitted. -/
def setConnByConn (s : MgrState) (c : Conn) : MgrState × Bool :=
  if s.current = some c.cid then (s, false)
  else
    match findByUri s.connections c.uri with
    | none =>
        ({ s with connections := s.connections ++ [c], current := some c.cid }, true)
    | some prev =>
        if s.current ≠ some prev.cid ∨ prev.username ≠ c.username then
          ({ s with connections := updateCred s.connections prev.cid c.username c.password,
                    current := some prev.cid }, true)
        else (s, false)

/-- The argument of `setConnection`: a URI string, a connection object, or
`undefined`. -/
inductive SetArg where
  | byUri (u : String)
  | byConn (c : Conn)
  | undef
deriving Repr, DecidableEq

/-- Modelled from the spec: `new MoneroRpcConnection(uri)` (the collaborator
is not under src/) creates a fresh connection object with the given address,
default empty credentials and priority 0 (§4.1); its health state is unknown.
`fresh` is the JavaScript identity of the newly allocated object. -/
def defaultConn (fresh : Nat) (u : String) : Conn :=
  ⟨fresh, u, none, none, 0, none, none, none⟩

/-- Embeds `setConnection(uriOrConnection)` (lines 158-197). A string argument
resolves the URI and recurses on the found object, or on a freshly constructed
connection when the URI is unknown (`fresh` is the identity of that new
object). An `undefined` argument first hits the identity test on line 168
(`undefined === undefined` when no current connection is set) and otherwise
clears the current reference and notifies. -/
def setConnection (s : MgrState) (arg : SetArg) (fresh : Nat) : MgrState × Bool :=
  match arg with
  | SetArg.byUri u =>
      match findByUri s.connections u with
      | some c => setConnByConn s c
      | none => setConnByConn s (defaultConn fresh u)
  | SetArg.undef =>
      match s.current with
      | none => (s, false)
      | some _ => ({ s with current := none }, true)
  | SetArg.byConn c => setConnByConn s c

/-- Models `String.prototype.localeCompare` as code-point comparison (the
spec's "ascending lexical order"): negative when the first string sorts
first, positive when it sorts last, zero on equality. -/
def localeCompare (a b : String) : Int :=
  if a < b then -1 else if b < a then 1 else 0

/-- Embeds `_compareConnections(c1, c2)` (lines 348-364). `cur` is the
`_currentConnection` reference. Truthiness of `c1.isOnline()` is
`online = some true`; `c1.isOnline() === undefined` is `online = none`. -/
def compareConnections (cur : Option Nat) (c1 c2 : Conn) : Int :=
  if cur = some c1.cid then -1
  else if cur = some c2.cid then 1
  else if c1.online = c2.online then
    (if c1.priority = c2.priority then localeCompare c1.uri c2.uri
     else if c1.priority = 0 then 1
     else if c2.priority = 0 then -1
     else (c1.priority : Int) - (c2.priority : Int))
  else
    (if c1.online = some true then -1
     else if c2.online = some true then 1
     else if c1.online = none then -1
     else 1)

/-- One step of a stable insertion sort: `x` is placed after every `y`
already in the list with `cmp y x ≤ 0`, matching the stable order produced
by `Array.prototype.sort` under a consistent comparator. -/
def insertCmp (cmp : Conn → Conn → Int) (x : Conn) : List Conn → List Conn
  | [] => [x]
  | y :: ys => if cmp y x ≤ 0 then y :: insertCmp cmp x ys else x :: y :: ys

/-- Models `Array.prototype.sort(cmp)` as a stable insertion sort. -/
def jsSort (cmp : Conn → Conn → Int) (l : List Conn) : List Conn :=
  l.foldl (fun acc x => insertCmp cmp x acc) []

/-- Embeds `getConnections()` (lines 102-106): copies `_connections` and
sorts the copy with `_compareConnections`. -/
def getConnections (s : MgrState) : List Conn :=
  jsSort (compareConnections s.current) s.connections

/-- Rank of a tri-state online status in the order produced by
`_compareConnections`: online first, then unknown, then offline. -/
def onlineRank : Option Bool → Nat
  | some true => 0
  | none => 1
  | some false => 2

/-- The strict priority order of `_compareConnections`: every positive
priority sorts before priority 0, positive priorities sort ascending. -/
def prioLt (p1 p2 : Nat) : Prop :=
  (p1 ≠ 0 ∧ p2 = 0) ∨ (p1 ≠ 0 ∧ p2 ≠ 0 ∧ p1 < p2)

instance : DecidablePred fun p : Nat × Nat => prioLt p.1 p.2 := by
  intro p; unfold prioLt; infer_instance

/-- The strict key order realised by `_compareConnections` on two
non-current connections: online status rank, then priority (positive
ascending, 0 last), then URI. -/
def connKeyLt (c1 c2 : Conn) : Prop :=
  onlineRank c1.online < onlineRank c2.online ∨
  (onlineRank c1.online = onlineRank c2.online ∧
    (prioLt c1.priority c2.priority ∨
     (c1.priority = c2.priority ∧ c1.uri < c2.uri)))

/-- The priority keys of the `connectionPriorities` map built by
`_getConnectionsInAscendingPriority` (lines 336-340), in first-occurrence
order (JavaScript `Map` preserves key insertion order). -/
def prioritiesOf (conns : List Conn) : List Nat :=
  conns.foldl (fun acc c => if acc.contains c.priority then acc else acc ++ [c.priority]) []

/-- Ascending insertion of a priority key, modelling the numeric sort
`(a, b) => parseInt(a[0]) - parseInt(b[0])` on line 341. -/
def insertAsc (p : Nat) : List Nat → List Nat
  | [] => [p]
  | q :: qs => if p ≤ q then p :: q :: qs else q :: insertAsc p qs

def sortAsc (l : List Nat) : List Nat := l.foldr insertAsc []

/-- The per-priority groups of lines 336-343 in ascending priority order:
for each priority key, the connections carrying it in registry order. -/
def groupsAsc (conns : List Conn) : List (List Conn) :=
  (sortAsc (prioritiesOf conns)).map (fun p => conns.filter (fun c => c.priority == p))

/-- An element of a tier array as produced by
`_getConnectionsInAscendingPriority`. Because line 344 pushes the raw return
value of `splice(0, 1)` — an array containing the removed tier — rather than
that array's single element, the relocated zero-priority tier appears as one
`arr` element (an array) instead of its member connections. -/
inductive TierItem where
  | conn (c : Conn)
  | arr (g : List Conn)
deriving Repr, DecidableEq

/-- Embeds `_getConnectionsInAscendingPriority` (lines 335-346): groups by
priority, orders groups ascending, then — when a priority-0 group exists —
executes `ascendingPrioritiesList.push(ascendingPrioritiesList.splice(0, 1))`,
which removes the structurally first group (the 0-priority group, since 0 is
the minimal key) and appends the one-element array returned by `splice`. -/
def tiersOf (conns : List Conn) : List (List TierItem) :=
  if conns.any (fun c => c.priority == 0) then
    match groupsAsc conns with
    | [] => []
    | g0 :: rest => rest.map (fun g => g.map TierItem.conn) ++ [[TierItem.arr g0]]
  else (groupsAsc conns).map (fun g => g.map TierItem.conn)

/-- Whether a probe of this connection fulfils: its check resolves and
afterwards `isOnline()` is truthy and `isAuthenticated() !== false`
(line 129). -/
def probeHealthy (c : Conn) : Bool :=
  match c.checkTarget with
  | some (o, a) => o == some true && a != some false
  | none => false

/-- The settlement of the probe promises launched for one tier (lines
124-136): an excluded connection is skipped before any promise is created; a
probe of a connection rejects with the transport error (`reject(err)`) or
with the bare `reject()` when unhealthy, and fulfils with the connection
otherwise; a probe of an `arr` item rejects with the `TypeError` raised by
calling `.checkConnection` on an array. -/
def tierSettles (excl : List Nat) (tier : List TierItem) : List (Except JsErr Conn) :=
  tier.filterMap (fun item =>
    match item with
    | TierItem.conn c =>
        if excl.contains c.cid then none
        else some (match c.checkTarget with
          | none => Except.error JsErr.transportError
          | some (o, a) =>
              if o == some true && a != some false then Except.ok c
              else Except.error JsErr.unhealthyProbe)
    | TierItem.arr _ => some (Except.error JsErr.typeErrorProbe))

/-- Models `Promise.any(checkPromises)` (line 139): fulfils with the first
fulfilled promise (list order standing in for completion order) and rejects
with an `AggregateError` when every promise rejects — including the empty
case. -/
def raceAny (ps : List (Except JsErr Conn)) : Except JsErr Conn :=
  match ps.findSome? (fun p => match p with | Except.ok c => some c | Except.error _ => none) with
  | some c => Except.ok c
  | none => Except.error JsErr.aggregateError

/-- The tier loop of `getBestAvailableConnection` (lines 117-144): each tier
is raced; a winner returns immediately; the `catch` swallows the
`AggregateError` of a fully-failed tier and falls through to the next tier
(`if (!(err instanceof AggregateError)) throw` — `Promise.any` only ever
rejects with an `AggregateError`, so the rethrow branch is unreachable);
an exhausted loop returns `undefined`. -/
def bestGo (excl : List Nat) : List (List TierItem) → Except JsErr (Option Conn)
  | [] => Except.ok none
  | t :: ts =>
      match raceAny (tierSettles excl t) with
      | Except.ok w => Except.ok (some w)
      | Except.error _ => bestGo excl ts

/-- Embeds `getBestAvailableConnection(excludedConnections)` (lines 114-146).
`excl` is the set of identities of the excluded connection objects
(`GenUtils.arrayContains` compares by identity; an `undefined` entry matches
no connection, so a missing current connection contributes nothing). -/
def getBestAvailable (conns : List Conn) (excl : List Nat) : Except JsErr (Option Conn) :=
  bestGo excl (tiersOf conns)

/-- Modelled from the spec: `MoneroRpcConnection.checkConnection(timeoutMs)`
(the collaborator is not under src/). Per §4.4 it performs one bounded
round-trip, updates the reachability/authentication tri-states as a side
effect, and resolves with a boolean; the manager's notify-on-return use of
that boolean (line 206) together with §4.6 step 1 ("If this changes its
effective health state, fire a change notification") fixes its meaning as
"whether the effective health state changed". §4.4's aside that the boolean
says "whether it is usable" is inconsistent with §4.6 and with the manager's
own guard, so the §4.6 reading is used. A `checkTarget` of `none` models a
check whose promise rejects (the prober's `reject(err)` branch accounts for
this possibility); the rejection propagates through the manager's bare
`await` on line 206. -/
def checkConn (c : Conn) : Except JsErr (Conn × Bool) :=
  match c.checkTarget with
  | none => Except.error JsErr.transportError
  | some (o, a) =>
      Except.ok ({ c with online := o, authStatus := a },
                 !(c.online == o && c.authStatus == a))

/-- In-place mutation of the connection object with identity `c2.cid`. -/
def updateConn (conns : List Conn) (c2 : Conn) : List Conn :=
  conns.map (fun x => if x.cid == c2.cid then c2 else x)

/-- The object referenced by `this._currentConnection` (lines 82-84). -/
def curConn (s : MgrState) : Option Conn :=
  match s.current with
  | none => none
  | some i => s.connections.find? (fun c => c.cid == i)

/-- The boolean returned by the current connection's health check (the
notification guard of line 206), as a function of the pre-check object. -/
def checkChangedB (c : Conn) : Bool :=
  match c.checkTarget with
  | some (o, a) => !(c.online == o && c.authStatus == a)
  | none => false

/-- The step-1 notification predicted by the embedding: fired exactly when a
current connection exists and its check reports a changed health state. -/
def step1Expected (s : MgrState) : Bool :=
  match curConn s with
  | some c => checkChangedB c
  | none => false

/-- Every notification recorded in the first argument targets an identity
different from the referenced current one. -/
def notifiesOtherOnly (n2 : Option Nat) (cur : Option Nat) : Prop :=
  ∀ j, n2 = some j → cur ≠ some j

/-- The auto-switch tail of `checkConnection()` (lines 207-210): probe for
the best available connection, excluding the given identities, and select it
via `setConnection` when one is found. The result carries the post-switch
state, the step-1 notification flag threaded through unchanged, and the
identity announced by the `setConnection` notification when that
notification fired. -/
def step2 (s1 : MgrState) (chg : Bool) (excl : List Nat) :
    Except JsErr (MgrState × Bool × Option Nat) :=
  match getBestAvailable s1.connections excl with
  | Except.error e => Except.error e
  | Except.ok none => Except.ok (s1, chg, none)
  | Except.ok (some best) =>
      (fun p => Except.ok (p.1, chg, if p.2 then p.1.current else none))
        (setConnByConn s1 best)

/-- Embeds `checkConnection()` (lines 204-212), one check cycle. The result
carries the post-cycle state, whether the step-1 notification
(`_onConnectionChanged(connection)` for the identity-unchanged current
connection) fired, and the identity announced by the step-2
`setConnection(bestConnection)` notification when that notification fired.
Step 2 runs when `_autoSwitch` is set and the (post-check) current connection
is missing, not online, or explicitly unauthenticated; it excludes the
current connection object from the probe (`[undefined]` when there is no
current connection, which excludes nothing). -/
def checkCycle (s : MgrState) : Except JsErr (MgrState × Bool × Option Nat) :=
  match curConn s with
  | none =>
      if s.autoSwitch then step2 s false [] else Except.ok (s, false, none)
  | some c =>
      match checkConn c with
      | Except.error e => Except.error e
      | Except.ok (c2, changed) =>
          if s.autoSwitch && !(c2.online == some true && c2.authStatus != some false) then
            step2 { s with connections := updateConn s.connections c2 } changed [c2.cid]
          else Except.ok ({ s with connections := updateConn s.connections c2 }, changed, none)

/-- One registered listener's reaction to a notification: the time at which
its `onConnectionChanged` handler's promise settles, and the error it
rejects with (`none` = fulfilment). -/
structure Handler where
  time : Nat
  result : Option JsErr
deriving Repr, DecidableEq

/-- The latest settlement time among the handlers (0 when there are none). -/
def maxFinishTime (hs : List Handler) : Nat :=
  hs.foldl (fun m h => max m h.time) 0

/-- Accumulates the earliest-settling failing handler seen so far. -/
def ffStep (acc : Option Handler) (h : Handler) : Option Handler :=
  match h.result with
  | none => acc
  | some _ =>
      match acc with
      | none => some h
      | some g => if h.time < g.time then some h else acc

/-- The earliest-settling failing handler (ties broken by list position),
i.e. the rejection that `Promise.all` adopts. -/
def firstFailure (hs : List Handler) : Option Handler :=
  hs.foldl ffStep none

/-- Embeds `_onConnectionChanged(connection)` (lines 329-333): the loop
invokes every listener in the live `_listeners` array (collecting one promise
per listener) and the method returns `Promise.all(promises)`. The result is
the settlement of that combined promise: the time at which it settles and the
error it rejects with, if any. `Promise.all` rejects as soon as the first
constituent rejection occurs, with exactly that error; it fulfils at the last
settlement otherwise. -/
def onConnectionChangedSettle (hs : List Handler) : Nat × Option JsErr :=
  match firstFailure hs with
  | some h => (h.time, h.result)
  | none => (maxFinishTime hs, none)

/-- A JavaScript heap of arrays of connections, indexed by reference. -/
abbrev ArrHeap := List (List Conn)

/-- Modelled from the spec: `GenUtils.copyArray(arr)` (not under src/)
allocates a fresh array holding the same elements — §4.2's ordering "is used
only for presentation", so the sort must operate on a copy. Returns the
extended heap and the fresh reference. -/
def copyArrayH (h : ArrHeap) (r : Nat) : ArrHeap × Nat :=
  (h ++ [h.getD r []], h.length)

/-- A mutation of the array at reference `r` (element assignment, push,
splice, in-place sort — any in-place update of its contents). -/
def writeArr (h : ArrHeap) (r : Nat) (v : List Conn) : ArrHeap :=
  h.set r v

/-- Embeds `getConnections()` (lines 102-106) against the array heap: copy
`_connections` (reference `mgr`), then sort the copy in place, then return
the copy's reference. -/
def getConnectionsHeap (h : ArrHeap) (mgr : Nat) (cur : Option Nat) : ArrHeap × Nat :=
  let pair := copyArrayH h mgr
  (writeArr pair.1 pair.2 (jsSort (compareConnections cur) (pair.1.getD pair.2 [])), pair.2)

/-- A registry holding one connection with URI "a" (which is current), used
to evaluate `removeConnection` on a present URI. -/
def removeDemoConn : Conn := ⟨0, "a", none, none, 1, none, none, none⟩

def removeDemoState : MgrState := ⟨[removeDemoConn], some 0, false⟩

/-- Priority-1 connection A whose health check reports it offline. -/
def proberDemoA : Conn := ⟨0, "a", none, none, 1, none, none, some (some false, none)⟩

/-- Priority-0 connection Z whose health check reports it online. -/
def proberDemoZ : Conn := ⟨1, "z", none, none, 0, none, none, some (some true, none)⟩

def proberDemoState : MgrState := ⟨[proberDemoA, proberDemoZ], none, false⟩

/-- Online connection A with priority 1. -/
def rankDemoA : Conn := ⟨0, "a", none, none, 1, some true, none, none⟩

/-- Online connection B with priority 2. -/
def rankDemoB : Conn := ⟨1, "b", none, none, 2, some true, none, none⟩

/-- Online connection C with priority 0. -/
def rankDemoC : Conn := ⟨2, "c", none, none, 0, some true, none, none⟩

def rankDemoState : MgrState := ⟨[rankDemoA, rankDemoB, rankDemoC], none, false⟩

def userAlice : String := "alice"

def pwdOld : String := "old"

def pwdNew : String := "new"

/-- A registered, current connection with username "alice" and password
"old". -/
def credDemoReg : Conn := ⟨0, "u", some userAlice, some pwdOld, 1, none, none, none⟩

def credDemoState : MgrState := ⟨[credDemoReg], some 0, false⟩

/-- A freshly constructed connection value with the same URI and username but
a different password "new". -/
def credDemoArg : Conn := ⟨1, "u", some userAlice, some pwdNew, 1, none, none, none⟩

/-- A URI registered in no demo state. -/
def missingUri : String := "zzz"

def setDemoState : MgrState := ⟨[], none, false⟩

/-- A lone registered connection whose health check reports it offline. -/
def bestDemoState : MgrState :=
  ⟨[⟨0, "a", none, none, 1, none, none, some (some false, none)⟩], none, false⟩

/-- A current connection, previously online, whose next check reports it
offline (an effective health-state change), with auto-switch disabled. -/
def cycleDemoConn : Conn := ⟨0, "w", none, none, 1, some true, none, some (some false, none)⟩

def cycleDemoState : MgrState := ⟨[cycleDemoConn], some 0, false⟩

/-- The state after one check cycle on `cycleDemoState`: the current
connection has been marked offline by its check. -/
def cycleDemoAfter : MgrState :=
  ⟨[⟨0, "w", none, none, 1, some false, none, some (some false, none)⟩], some 0, false⟩

/-- Two handlers: one fulfils at time 5, the other rejects at time 1. -/
def notifyDemo : List Handler := [⟨5, none⟩, ⟨1, some JsErr.transportError⟩]

/-- A heap holding the manager's `_connections` array at reference 0. -/
def heapDemo : ArrHeap := [[rankDemoA, rankDemoB, rankDemoC]]

instance {ε α : Type} [DecidableEq ε] [DecidableEq α] : DecidableEq (Except ε α) :=
  fun x y =>
    match x, y with
    | Except.ok a, Except.ok b =>
        if h : a = b then isTrue (by simp [h]) else isFalse (by simp [h])
    | Except.error a, Except.error b =>
        if h : a = b then isTrue (by simp [h]) else isFalse (by simp [h])
    | Except.ok _, Except.error _ => isFalse (by simp)
    | Except.error _, Except.ok _ => isFalse (by simp)

/-- C1: for a registered URI, `removeConnection` does not succeed: line 63
evaluates the unbound identifier `connections` and raises a
`ReferenceError` before any mutation, so the connection stays registered and
the current reference stays set; for an unknown URI the call fails with the
unknown-endpoint `MoneroError` and the registry is unchanged, as the claim
states. The first conjunct evaluates the code at the failing input. -/
theorem removeConnection_present_raises_reference_error :
    removeConnection removeDemoState removeDemoConn.uri =
      (removeDemoState, some JsErr.referenceErrorConnections) ∧
    removeConnection removeDemoState missingUri =
      (removeDemoState, some JsErr.unknownUriError) :=
  ⟨rfl, rfl⟩

/-- C2: with registry {A: priority 1, unreachable; Z: priority 0, reachable},
`_getConnectionsInAscendingPriority` produces the priority-1 tier followed by
a tier whose single element is the raw array returned by `splice(0, 1)`
(wrapping Z) instead of Z itself, so `getBestAvailableConnection({})` probes
that array, gets a `TypeError`-rejection absorbed into the tier's
`AggregateError`, and returns `undefined` — not Z, although Z's probe would
fulfil. This theorem evaluates the code at the claim's input. -/
theorem bestAvailable_priority_zero_never_wins :
    tiersOf proberDemoState.connections =
      [[TierItem.conn proberDemoA], [TierItem.arr [proberDemoZ]]] ∧
    probeHealthy proberDemoZ = true ∧
    getBestAvailable proberDemoState.connections [] = Except.ok none :=
  ⟨rfl, rfl, rfl⟩

/-- C4: with a registered, current connection {uri u, username alice,
password old} and a supplied connection value {uri u, username alice,
password new}, `setConnection` leaves the state untouched and fires no
notification: line 190's guard compares the supplied password with itself
(`connection.getPassword() !== connection.getPassword()`), so a
password-only difference never triggers the credential overwrite. This
theorem evaluates the code at the failing input. -/
theorem setConnection_password_only_update_dropped :
    credDemoReg.password ≠ credDemoArg.password ∧
    credDemoReg.username = credDemoArg.username ∧
    setConnection credDemoState (SetArg.byConn credDemoArg) 99 = (credDemoState, false) :=
  ⟨by decide, rfl, rfl⟩

/-- C3 counterexample: for registry {A: priority 1, online; B: priority 2,
online; C: priority 0, online} with no current connection, `getConnections()`
returns [A, B, C] — positive priorities ascending (1 before 2) — and not the
claimed [B, A, C]. -/
theorem getConnections_order_counterexample :
    (getConnections rankDemoState).map (fun c => c.uri) =
      [rankDemoA.uri, rankDemoB.uri, rankDemoC.uri] ∧
    getConnections rankDemoState ≠ [rankDemoB, rankDemoA, rankDemoC] :=
  ⟨rfl, by decide⟩

/-- C9 counterexample: with one handler fulfilling at time 5 and one
rejecting at time 1, the `Promise.all` returned by `_onConnectionChanged`
settles at time 1 — before every handler has completed — and rejects with
that single handler's error rather than surfacing an aggregate, non-fatal
report of the failures. -/
theorem onConnectionChanged_not_aggregated_counterexample :
    onConnectionChangedSettle notifyDemo = (1, some JsErr.transportError) ∧
    (onConnectionChangedSettle notifyDemo).1 < maxFinishTime notifyDemo :=
  ⟨rfl, by decide⟩

/-- C3 (amended): for registry {A: priority 1, online; B: priority 2, online;
C: priority 0, online} with no current connection, `getConnections()` returns
[A, B, C]; in general the sort comparator places the current connection
first, and orders any two non-current connections by online status (online,
then unknown, then offline), then by priority ascending with priority 0
always last, then by URI in ascending lexical order. -/
theorem getConnections_ranked_order :
    ((getConnections rankDemoState).map (fun c => c.uri) =
      [rankDemoA.uri, rankDemoB.uri, rankDemoC.uri]) ∧
    (∀ (cur : Option Nat) (c1 c2 : Conn),
      cur = some c1.cid → compareConnections cur c1 c2 = -1) ∧
    (∀ (cur : Option Nat) (c1 c2 : Conn),
      cur ≠ some c1.cid → cur = some c2.cid → compareConnections cur c1 c2 = 1) ∧
    (∀ (cur : Option Nat) (c1 c2 : Conn),
      cur ≠ some c1.cid → cur ≠ some c2.cid →
      (compareConnections cur c1 c2 < 0 ↔ connKeyLt c1 c2)) := by
  refine ⟨rfl, ?_, ?_, ?_⟩
  · intro cur c1 c2 h
    unfold compareConnections
    rw [if_pos h]
  · intro cur c1 c2 h1 h2
    unfold compareConnections
    rw [if_neg h1, if_pos h2]
  · intro cur c1 c2 h1 h2
    unfold compareConnections connKeyLt prioLt localeCompare
    rw [if_neg h1, if_neg h2]
    by_cases ho : c1.online = c2.online
    · have he : onlineRank c1.online = onlineRank c2.online := congrArg onlineRank ho
      rw [if_pos ho]
      by_cases hp : c1.priority = c2.priority
      · rw [if_pos hp]
        split_ifs with hu1 hu2
        · exact iff_of_true (by decide) (Or.inr ⟨he, Or.inr ⟨hp, hu1⟩⟩)
        · refine iff_of_false (by decide) ?_
          rintro (hk | ⟨_, (⟨_, h0⟩ | ⟨_, _, hlt⟩) | ⟨_, hk⟩⟩)
          · omega
          · omega
          · omega
          · exact hu1 hk
        · refine iff_of_false (by decide) ?_
          rintro (hk | ⟨_, (⟨_, h0⟩ | ⟨_, _, hlt⟩) | ⟨_, hk⟩⟩)
          · omega
          · omega
          · omega
          · exact hu1 hk
      · rw [if_neg hp]
        split_ifs with hz1 hz2
        · refine iff_of_false (by decide) ?_
          rintro (hk | ⟨_, (⟨hne, _⟩ | ⟨hne, _, _⟩) | ⟨heq, _⟩⟩)
          · omega
          · exact hne hz1
          · exact hne hz1
          · exact hp heq
        · exact iff_of_true (by decide) (Or.inr ⟨he, Or.inl (Or.inl ⟨hz1, hz2⟩)⟩)
        · constructor
          · intro hlt
            refine Or.inr ⟨he, Or.inl (Or.inr ⟨hz1, hz2, ?_⟩)⟩
            omega
          · rintro (hk | ⟨_, (⟨_, h0⟩ | ⟨_, _, hlt⟩) | ⟨heq, _⟩⟩)
            · omega
            · exact absurd h0 hz2
            · omega
            · exact absurd heq hp
    · rw [if_neg ho]
      rcases hon1 : c1.online with _ | b1 <;> rcases hon2 : c2.online with _ | b2 <;>
        first
          | (cases b1 <;> cases b2 <;> simp_all [onlineRank])
          | (cases b1 <;> simp_all [onlineRank])
          | (cases b2 <;> simp_all [onlineRank])
          | simp_all [onlineRank]

/-- Witness for the ranked-order theorem at concrete inputs: current-first in
both directions, and the key characterisation for two non-current
connections. -/
theorem getConnections_ranked_order_witness :
    compareConnections (some rankDemoA.cid) rankDemoA rankDemoB = -1 ∧
    compareConnections (some rankDemoB.cid) rankDemoA rankDemoB = 1 ∧
    (compareConnections none rankDemoA rankDemoB < 0 ↔ connKeyLt rankDemoA rankDemoB) :=
  ⟨getConnections_ranked_order.2.1 (some rankDemoA.cid) rankDemoA rankDemoB rfl,
   getConnections_ranked_order.2.2.1 (some rankDemoB.cid) rankDemoA rankDemoB (by decide) rfl,
   getConnections_ranked_order.2.2.2 none rankDemoA rankDemoB (by decide) (by decide)⟩

/-- C10: `getConnections()` sorts a fresh copy: the returned array is a
different reference from the internal `_connections` array, the internal
array's contents (and stored order) are unchanged by the call, and any
subsequent in-place mutation of the returned array leaves the internal array
untouched. -/
theorem getConnections_returns_fresh_copy :
    ∀ (h : ArrHeap) (mgr : Nat) (cur : Option Nat) (v : List Conn),
      mgr < h.length →
      (getConnectionsHeap h mgr cur).2 ≠ mgr ∧
      (getConnectionsHeap h mgr cur).1.getD mgr [] = h.getD mgr [] ∧
      (writeArr (getConnectionsHeap h mgr cur).1 (getConnectionsHeap h mgr cur).2 v).getD mgr []
        = h.getD mgr [] := by
  intro h mgr cur v hm
  have hne : h.length ≠ mgr := by omega
  have happ : ∀ x : List Conn, (h ++ [x]).getD mgr [] = h.getD mgr [] := by
    intro x
    simp [List.getD_eq_getElem?_getD, List.getElem?_append, hm]
  have hset : ∀ (l : ArrHeap) (w : List Conn), (l.set h.length w).getD mgr [] = l.getD mgr [] := by
    intro l w
    simp [List.getD_eq_getElem?_getD, List.getElem?_set_ne hne]
  refine ⟨?_, ?_, ?_⟩
  · show h.length ≠ mgr
    omega
  · show ((h ++ [h.getD mgr []]).set h.length _).getD mgr [] = h.getD mgr []
    rw [hset, happ]
  · show (((h ++ [h.getD mgr []]).set h.length _).set h.length v).getD mgr [] = h.getD mgr []
    rw [hset, hset, happ]

/-- Witness: the copy/isolation properties at a concrete one-array heap. -/
theorem getConnections_returns_fresh_copy_witness :
    (getConnectionsHeap heapDemo 0 none).2 ≠ 0 ∧
    (getConnectionsHeap heapDemo 0 none).1.getD 0 [] = heapDemo.getD 0 [] ∧
    (writeArr (getConnectionsHeap heapDemo 0 none).1 (getConnectionsHeap heapDemo 0 none).2 []).getD 0 []
      = heapDemo.getD 0 [] :=
  getConnections_returns_fresh_copy heapDemo 0 none [] (by decide)

theorem ffFold_spec (hs : List Handler) (acc : Option Handler) :
    (hs.foldl ffStep acc = none ↔ (acc = none ∧ ∀ h ∈ hs, h.result = none)) ∧
    (∀ g, hs.foldl ffStep acc = some g →
      (acc = some g ∨ (g ∈ hs ∧ g.result ≠ none)) ∧
      (∀ h ∈ hs, h.result ≠ none → g.time ≤ h.time) ∧
      (∀ g0, acc = some g0 → g.time ≤ g0.time)) := by
  induction hs generalizing acc with
  | nil =>
    refine ⟨by simp, ?_⟩
    intro g hg
    simp only [List.foldl_nil] at hg
    refine ⟨Or.inl hg, by simp, ?_⟩
    intro g0 hg0
    rw [hg] at hg0
    exact le_of_eq (congrArg Handler.time (Option.some_inj.1 hg0))
  | cons h t ih =>
    have step_none : ∀ a, ffStep a h = none ↔ (h.result = none ∧ a = none) := by
      intro a
      unfold ffStep
      rcases hr : h.result with _ | e
      · simp
      · rcases a with _ | g0
        · simp
        · by_cases ht : h.time < g0.time <;> simp [ht]
    constructor
    · rw [List.foldl_cons, (ih (ffStep acc h)).1]
      constructor
      · rintro ⟨hstep, hall⟩
        rcases (step_none acc).1 hstep with ⟨hhr, hacc0⟩
        exact ⟨hacc0, fun x hx => by
          rcases List.mem_cons.1 hx with hx | hx
          · rw [hx]; exact hhr
          · exact hall x hx⟩
      · rintro ⟨hacc0, hall⟩
        exact ⟨(step_none acc).2 ⟨hall h (List.mem_cons_self h t), hacc0⟩,
               fun x hx => hall x (List.mem_cons.2 (Or.inr hx))⟩
    · intro g hg
      rw [List.foldl_cons] at hg
      obtain ⟨hmem, hbnd, haccb⟩ := (ih (ffStep acc h)).2 g hg
      rcases hr : h.result with _ | e
      · have hstep : ffStep acc h = acc := by unfold ffStep; rw [hr]
        rw [hstep] at hmem haccb
        refine ⟨?_, ?_, haccb⟩
        · rcases hmem with hm | hm
          · exact Or.inl hm
          · exact Or.inr ⟨List.mem_cons.2 (Or.inr hm.1), hm.2⟩
        · intro x hx hxr
          rcases List.mem_cons.1 hx with hx | hx
          · rw [hx] at hxr; exact absurd hr hxr
          · exact hbnd x hx hxr
      · rcases ha : acc with _ | g0
        · have hstep : ffStep acc h = some h := by unfold ffStep; rw [hr, ha]
          rw [hstep] at hmem haccb
          have hgh : g.time ≤ h.time := haccb h rfl
          refine ⟨?_, ?_, ?_⟩
          · rcases hmem with hm | hm
            · obtain rfl := Option.some_inj.1 hm
              refine Or.inr ⟨List.mem_cons_self h t, ?_⟩
              rw [hr]
              exact fun hc => by cases hc
            · exact Or.inr ⟨List.mem_cons.2 (Or.inr hm.1), hm.2⟩
          · intro x hx hxr
            rcases List.mem_cons.1 hx with hx | hx
            · rw [hx]; exact hgh
            · exact hbnd x hx hxr
          · intro g1 hg1
            simp at hg1
        · by_cases ht : h.time < g0.time
          · have hstep : ffStep acc h = some h := by
              unfold ffStep; rw [hr, ha]; simp [ht]
            rw [hstep] at hmem haccb
            have hgh : g.time ≤ h.time := haccb h rfl
            refine ⟨?_, ?_, ?_⟩
            · rcases hmem with hm | hm
              · obtain rfl := Option.some_inj.1 hm
                refine Or.inr ⟨List.mem_cons_self h t, ?_⟩
                rw [hr]
                exact fun hc => by cases hc
              · exact Or.inr ⟨List.mem_cons.2 (Or.inr hm.1), hm.2⟩
            · intro x hx hxr
              rcases List.mem_cons.1 hx with hx | hx
              · rw [hx]; exact hgh
              · exact hbnd x hx hxr
            · intro g1 hg1
              obtain rfl := Option.some_inj.1 hg1
              omega
          · have hstep : ffStep acc h = some g0 := by
              unfold ffStep; rw [hr, ha]; simp [ht]
            rw [hstep] at hmem haccb
            have hgg0 : g.time ≤ g0.time := haccb g0 rfl
            refine ⟨?_, ?_, ?_⟩
            · rcases hmem with hm | hm
              · exact Or.inl (Option.some_inj.1 hm ▸ rfl)
              · exact Or.inr ⟨List.mem_cons.2 (Or.inr hm.1), hm.2⟩
            · intro x hx hxr
              rcases List.mem_cons.1 hx with hx | hx
              · rw [hx]; omega
              · exact hbnd x hx hxr
            · intro g1 hg1
              obtain rfl := Option.some_inj.1 hg1
              exact hgg0

/-- C9 (amended): `_onConnectionChanged` invokes the handler of every
registered observer (one promise per listener is collected before awaiting),
and the returned `Promise.all` settles as follows: it fulfils — at the time
the last handler completes — exactly when every handler succeeds; if any
handler fails, it rejects with the single error of the earliest-failing
handler, at that handler's settlement time, i.e. without waiting for the
still-running handlers and without collecting the other failures into an
aggregate report. The listener list is iterated directly; no snapshot is
taken. -/
theorem onConnectionChanged_settle_spec :
    ∀ hs : List Handler,
      ((onConnectionChangedSettle hs).2 = none ↔ ∀ h ∈ hs, h.result = none) ∧
      ((onConnectionChangedSettle hs).2 = none →
        (onConnectionChangedSettle hs).1 = maxFinishTime hs) ∧
      (∀ e, (onConnectionChangedSettle hs).2 = some e →
        (∃ h, h ∈ hs ∧ h.result = some e ∧ h.time = (onConnectionChangedSettle hs).1) ∧
        (∀ h2 ∈ hs, h2.result ≠ none → (onConnectionChangedSettle hs).1 ≤ h2.time)) := by
  intro hs
  have hspec := ffFold_spec hs none
  unfold onConnectionChangedSettle firstFailure
  rcases hff : hs.foldl ffStep none with _ | g
  · refine ⟨?_, fun _ => rfl, ?_⟩
    · exact iff_of_true rfl (fun h hh => (hspec.1.1 hff).2 h hh)
    · intro e he
      simp at he
  · obtain ⟨hmem, hbnd, _⟩ := hspec.2 g hff
    have hgmem : g ∈ hs ∧ g.result ≠ none := by
      rcases hmem with hm | hm
      · simp at hm
      · exact hm
    refine ⟨?_, ?_, ?_⟩
    · exact iff_of_false hgmem.2 (fun hall => hgmem.2 (hall g hgmem.1))
    · intro hnone
      exact absurd hnone hgmem.2
    · intro e he
      exact ⟨⟨g, hgmem.1, he, rfl⟩, fun h2 hh2 hr2 => hbnd h2 hh2 hr2⟩

/-- Witness: at the two-handler input, the rejected dispatch settles no later
than the failing handler that rejects at time 1. -/
theorem onConnectionChanged_settle_spec_witness :
    (onConnectionChangedSettle notifyDemo).1 ≤ (Handler.mk 1 (some JsErr.transportError)).time :=
  ((onConnectionChanged_settle_spec notifyDemo).2.2 JsErr.transportError (by decide)).2
    (Handler.mk 1 (some JsErr.transportError)) (by decide) (by decide)

theorem findSome_eq_some_mem {α β : Type} (f : α → Option β) (l : List α) (b : β) :
    l.findSome? f = some b → ∃ a, a ∈ l ∧ f a = some b := by
  induction l with
  | nil => intro h; simp at h
  | cons x t ih =>
    intro h
    rw [List.findSome?_cons] at h
    rcases hx : f x with _ | v
    · rw [hx] at h
      obtain ⟨a, ha, hfa⟩ := ih h
      exact ⟨a, List.mem_cons.2 (Or.inr ha), hfa⟩
    · rw [hx] at h
      simp only at h
      exact ⟨x, List.mem_cons_self x t, by rw [hx]; exact h⟩

theorem groupsAsc_subset (conns : List Conn) :
    ∀ g ∈ groupsAsc conns, ∀ c ∈ g, c ∈ conns := by
  intro g hg c hc
  unfold groupsAsc at hg
  obtain ⟨p, _, rfl⟩ := List.mem_map.1 hg
  exact List.mem_of_mem_filter hc

theorem tiersOf_conn_mem (conns : List Conn) :
    ∀ t ∈ tiersOf conns, ∀ c, TierItem.conn c ∈ t → c ∈ conns := by
  intro t ht c hc
  unfold tiersOf at ht
  have fromMap : ∀ (gs : List (List Conn)), (∀ g ∈ gs, ∀ x ∈ g, x ∈ conns) →
      t ∈ gs.map (fun g => g.map TierItem.conn) → c ∈ conns := by
    intro gs hgs htm
    obtain ⟨g, hgmem, rfl⟩ := List.mem_map.1 htm
    obtain ⟨x, hx, hxc⟩ := List.mem_map.1 hc
    injection hxc with hxe
    subst hxe
    exact hgs g hgmem x hx
  by_cases h0 : conns.any (fun c => c.priority == 0)
  · rw [if_pos h0] at ht
    rcases hg : groupsAsc conns with _ | ⟨g0, rest⟩
    · rw [hg] at ht
      simp at ht
    · rw [hg] at ht
      rcases List.mem_append.1 ht with hta | htb
      · refine fromMap rest ?_ hta
        intro g hgmem x hx
        exact groupsAsc_subset conns g (by rw [hg]; exact List.mem_cons.2 (Or.inr hgmem)) x hx
      · rcases List.mem_singleton.1 htb with rfl
        rcases List.mem_singleton.1 hc with hcc
        cases hcc
  · rw [if_neg h0] at ht
    exact fromMap (groupsAsc conns) (groupsAsc_subset conns) ht

theorem raceAny_ok_spec (excl : List Nat) (t : List TierItem) (w : Conn) :
    raceAny (tierSettles excl t) = Except.ok w →
    TierItem.conn w ∈ t ∧ probeHealthy w = true ∧ excl.contains w.cid = false := by
  intro h
  unfold raceAny at h
  rcases hf : (tierSettles excl t).findSome?
      (fun p => match p with | Except.ok c => some c | Except.error _ => none) with _ | c
  · rw [hf] at h
    cases h
  · rw [hf] at h
    simp only at h
    injection h with hcw
    subst hcw
    obtain ⟨p, hp, hpw⟩ := findSome_eq_some_mem _ _ _ hf
    have hpok : p = Except.ok c := by
      rcases p with e | v
      · simp at hpw
      · simp only at hpw
        injection hpw with hvc
        rw [hvc]
    rw [hpok] at hp
    unfold tierSettles at hp
    obtain ⟨item, hitem, hfi⟩ := List.mem_filterMap.1 hp
    rcases item with cc | g
    · simp only at hfi
      by_cases hex : excl.contains cc.cid
      · rw [if_pos hex] at hfi
        cases hfi
      · rw [if_neg hex] at hfi
        rcases htg : cc.checkTarget with _ | ⟨o, a⟩
        · rw [htg] at hfi
          simp only at hfi
          injection hfi with hfi2
          cases hfi2
        · rw [htg] at hfi
          simp only at hfi
          by_cases hok : (o == some true && a != some false) = true
          · rw [if_pos hok] at hfi
            injection hfi with hfi2
            injection hfi2 with hfi3
            subst hfi3
            simp only [Bool.not_eq_true] at hex
            refine ⟨hitem, ?_, hex⟩
            unfold probeHealthy
            rw [htg]
            exact hok
          · rw [if_neg hok] at hfi
            injection hfi with hfi2
            cases hfi2
    · simp only at hfi
      injection hfi with hfi2
      cases hfi2

theorem bestGo_total (excl : List Nat) (ts : List (List TierItem)) :
    ∃ r, bestGo excl ts = Except.ok r := by
  induction ts with
  | nil => exact ⟨none, rfl⟩
  | cons t rest ih =>
    unfold bestGo
    rcases hr : raceAny (tierSettles excl t) with e | w
    · exact ih
    · exact ⟨some w, rfl⟩

theorem bestGo_none_of_unhealthy (conns : List Conn) (excl : List Nat)
    (hun : ∀ c ∈ conns, probeHealthy c = false) :
    ∀ ts, (∀ t ∈ ts, ∀ c, TierItem.conn c ∈ t → c ∈ conns) →
      bestGo excl ts = Except.ok none := by
  intro ts
  induction ts with
  | nil => intro _; rfl
  | cons t rest ih =>
    intro hmem
    unfold bestGo
    rcases hr : raceAny (tierSettles excl t) with e | w
    · exact ih (fun t2 ht2 => hmem t2 (List.mem_cons.2 (Or.inr ht2)))
    · obtain ⟨hw, hhealthy, _⟩ := raceAny_ok_spec excl t w hr
      have hwc : w ∈ conns := hmem t (List.mem_cons_self t rest) w hw
      rw [hun w hwc] at hhealthy
      cases hhealthy

theorem bestGo_winner (excl : List Nat) (ts : List (List TierItem)) (w : Conn) :
    bestGo excl ts = Except.ok (some w) →
    ∃ t, t ∈ ts ∧ raceAny (tierSettles excl t) = Except.ok w := by
  induction ts with
  | nil => intro h; cases h
  | cons t rest ih =>
    intro h
    unfold bestGo at h
    rcases hr : raceAny (tierSettles excl t) with e | v
    · rw [hr] at h
      simp only at h
      obtain ⟨t2, ht2, hrt2⟩ := ih h
      exact ⟨t2, List.mem_cons.2 (Or.inr ht2), hrt2⟩
    · rw [hr] at h
      simp only at h
      injection h with h2
      injection h2 with h3
      subst h3
      exact ⟨t, List.mem_cons_self t rest, hr⟩

theorem getBestAvailable_winner_spec (conns : List Conn) (excl : List Nat) (w : Conn) :
    getBestAvailable conns excl = Except.ok (some w) →
    w ∈ conns ∧ probeHealthy w = true ∧ excl.contains w.cid = false := by
  intro h
  obtain ⟨t, ht, hrt⟩ := bestGo_winner excl (tiersOf conns) w h
  obtain ⟨hw, hh, hex⟩ := raceAny_ok_spec excl t w hrt
  exact ⟨tiersOf_conn_mem conns t ht w hw, hh, hex⟩

/-- C6: `getBestAvailableConnection` never throws for the absence of a
healthy connection: for every registry and exclusion set the call settles
with a plain result (first conjunct), and when no registered connection's
probe fulfils — every probe times out, rejects, or reports an unusable node,
including the empty-registry case — the result is `undefined` (second
conjunct); each fully-failed tier's `AggregateError` is swallowed inside the
loop, and only a non-`AggregateError` error would propagate (the rethrow
branch is unreachable because `Promise.any` rejects only with an
`AggregateError`). -/
theorem bestAvailable_no_throw_on_no_result :
    ∀ (conns : List Conn) (excl : List Nat),
      (∃ r, getBestAvailable conns excl = Except.ok r) ∧
      ((∀ c ∈ conns, probeHealthy c = false) →
        getBestAvailable conns excl = Except.ok none) := by
  intro conns excl
  constructor
  · exact bestGo_total excl (tiersOf conns)
  · intro hun
    exact bestGo_none_of_unhealthy conns excl hun (tiersOf conns) (tiersOf_conn_mem conns)

/-- Witness: with a single unhealthy connection the prober returns the
no-result outcome rather than an error. -/
theorem bestAvailable_no_throw_on_no_result_witness :
    getBestAvailable bestDemoState.connections [] = Except.ok none :=
  (bestAvailable_no_throw_on_no_result bestDemoState.connections []).2 (by decide)

theorem map_eq_self_mem {α : Type} (f : α → α) (l : List α) (h : l.map f = l) :
    ∀ a ∈ l, f a = a := by
  induction l with
  | nil => intro a ha; simp at ha
  | cons x t ih =>
    rw [List.map_cons] at h
    injection h with h1 h2
    intro a ha
    rcases List.mem_cons.1 ha with rfl | ha2
    · exact h1
    · exact ih h2 a ha2

theorem updateCred_ne (conns : List Conn) (prev : Conn) (u p : Option String)
    (hmem : prev ∈ conns) (hne : prev.username ≠ u) :
    updateCred conns prev.cid u p ≠ conns := by
  intro heq
  have hfp := map_eq_self_mem _ _ heq prev hmem
  simp only [beq_self_eq_true, if_true] at hfp
  exact hne (congrArg Conn.username hfp).symm

theorem findByUri_updateCred (conns : List Conn) (i : Nat) (u p : Option String) (x : String) :
    findByUri (updateCred conns i u p) x =
      Option.map (fun r => if r.cid == i then { r with username := u, password := p } else r)
        (findByUri conns x) := by
  unfold findByUri updateCred
  rw [List.find?_map]
  have hpred : ((fun c : Conn => c.uri == x) ∘
      (fun r : Conn => if r.cid == i then { r with username := u, password := p } else r)) =
      (fun c : Conn => c.uri == x) := by
    funext r
    simp only [Function.comp]
    by_cases h : (r.cid == i) = true
    · rw [if_pos h]
    · rw [if_neg h]
  rw [hpred]

theorem findByUri_congr (conns : List Conn) (u : String) (c : Conn)
    (h : findByUri conns u = some c) : findByUri conns c.uri = some c := by
  unfold findByUri at h
  have hbeq := List.find?_some h
  have huri : c.uri = u := eq_of_beq hbeq
  unfold findByUri
  rw [huri]
  exact h

theorem findByUri_append_right (conns : List Conn) (c : Conn) (u : String)
    (hnone : findByUri conns u = none) (huri : c.uri = u) :
    findByUri (conns ++ [c]) u = some c := by
  unfold findByUri at hnone ⊢
  rw [List.find?_append, hnone]
  simp [huri]

theorem setConnByConn_notify_iff (s : MgrState) (c : Conn) :
    (setConnByConn s c).2 = true ↔ (setConnByConn s c).1 ≠ s := by
  by_cases h1 : s.current = some c.cid
  · have hip : setConnByConn s c = (s, false) := by
      unfold setConnByConn
      rw [if_pos h1]
    rw [hip]
    simp
  · rcases hf : findByUri s.connections c.uri with _ | prev
    · have hip : setConnByConn s c =
          ({ s with connections := s.connections ++ [c], current := some c.cid }, true) := by
        unfold setConnByConn
        rw [if_neg h1, hf]
      rw [hip]
      constructor
      · intro _ heq
        have hlen := congrArg (fun st : MgrState => st.connections.length) heq
        simp at hlen
      · intro _
        rfl
    · by_cases hcond : s.current ≠ some prev.cid ∨ prev.username ≠ c.username
      · have hip : setConnByConn s c =
            ({ s with connections := updateCred s.connections prev.cid c.username c.password,
                      current := some prev.cid }, true) := by
          unfold setConnByConn
          rw [if_neg h1, hf]
          exact if_pos hcond
        rw [hip]
        constructor
        · intro _ heq
          rcases hcond with hcur | hname
          · have hc2 := congrArg MgrState.current heq
            simp only at hc2
            exact hcur hc2.symm
          · have hc2 := congrArg MgrState.connections heq
            simp only at hc2
            exact updateCred_ne s.connections prev c.username c.password
              (List.mem_of_find?_eq_some hf) hname hc2
        · intro _
          rfl
      · have hip : setConnByConn s c = (s, false) := by
          unfold setConnByConn
          rw [if_neg h1, hf]
          exact if_neg hcond
        rw [hip]
        simp

theorem setConnByConn_second (s : MgrState) (c : Conn) :
    (setConnByConn (setConnByConn s c).1 c).2 = false := by
  by_cases h1 : s.current = some c.cid
  · have hip : setConnByConn s c = (s, false) := by
      unfold setConnByConn
      rw [if_pos h1]
    rw [hip, hip]
  · rcases hf : findByUri s.connections c.uri with _ | prev
    · have hip : setConnByConn s c =
          ({ s with connections := s.connections ++ [c], current := some c.cid }, true) := by
        unfold setConnByConn
        rw [if_neg h1, hf]
      rw [hip]
      unfold setConnByConn
      rw [if_pos rfl]
    · by_cases hcond : s.current ≠ some prev.cid ∨ prev.username ≠ c.username
      · have hip : setConnByConn s c =
            ({ s with connections := updateCred s.connections prev.cid c.username c.password,
                      current := some prev.cid }, true) := by
          unfold setConnByConn
          rw [if_neg h1, hf]
          exact if_pos hcond
        rw [hip]
        by_cases h2 : prev.cid = c.cid
        · unfold setConnByConn
          rw [if_pos (by rw [h2])]
        · unfold setConnByConn
          rw [if_neg (fun hcc => h2 (Option.some_inj.1 hcc))]
          rw [findByUri_updateCred, hf]
          simp
      · have hip : setConnByConn s c = (s, false) := by
          unfold setConnByConn
          rw [if_neg h1, hf]
          exact if_neg hcond
        rw [hip, hip]

theorem setConnection_byUri_found_second (s : MgrState) (u : String) (c0 : Conn) (fresh2 : Nat)
    (hf0 : findByUri s.connections u = some c0) :
    (setConnection (setConnByConn s c0).1 (SetArg.byUri u) fresh2).2 = false := by
  by_cases h1 : s.current = some c0.cid
  · have hip : setConnByConn s c0 = (s, false) := by
      unfold setConnByConn
      rw [if_pos h1]
    have hs1 : (setConnByConn s c0).1 = s := by
      rw [hip]
    rw [hs1]
    have heq2 : setConnection s (SetArg.byUri u) fresh2 = setConnByConn s c0 := by
      show (match findByUri s.connections u with
            | some c => setConnByConn s c
            | none => setConnByConn s (defaultConn fresh2 u)) = setConnByConn s c0
      rw [hf0]
    rw [heq2, hip]
  · have hfc : findByUri s.connections c0.uri = some c0 := findByUri_congr _ _ _ hf0
    have hcond : s.current ≠ some c0.cid ∨ c0.username ≠ c0.username := Or.inl h1
    have hip : setConnByConn s c0 =
        ({ s with connections := updateCred s.connections c0.cid c0.username c0.password,
                  current := some c0.cid }, true) := by
      unfold setConnByConn
      rw [if_neg h1, hfc]
      exact if_pos hcond
    have hs1 : (setConnByConn s c0).1 =
        { s with connections := updateCred s.connections c0.cid c0.username c0.password,
                 current := some c0.cid } := by
      rw [hip]
    rw [hs1]
    have hfu : findByUri (updateCred s.connections c0.cid c0.username c0.password) u = some c0 := by
      rw [findByUri_updateCred, hf0]
      simp
    have heq2 : setConnection
        { s with connections := updateCred s.connections c0.cid c0.username c0.password,
                 current := some c0.cid } (SetArg.byUri u) fresh2 =
        setConnByConn
          { s with connections := updateCred s.connections c0.cid c0.username c0.password,
                   current := some c0.cid } c0 := by
      show (match findByUri (updateCred s.connections c0.cid c0.username c0.password) u with
            | some c => setConnByConn
                { s with connections := updateCred s.connections c0.cid c0.username c0.password,
                         current := some c0.cid } c
            | none => setConnByConn
                { s with connections := updateCred s.connections c0.cid c0.username c0.password,
                         current := some c0.cid } (defaultConn fresh2 u)) =
          setConnByConn
            { s with connections := updateCred s.connections c0.cid c0.username c0.password,
                     current := some c0.cid } c0
      rw [hfu]
    rw [heq2]
    unfold setConnByConn
    rw [if_pos rfl]

/-- C5: a `setConnection` call fires a change notification exactly when it
changes the manager's observable state (the current reference, the set of
registered connections, or some connection's stored credentials — i.e. the
resulting `MgrState` differs), and a second call with the same argument
immediately after the first is a notification no-op, so two consecutive
identical calls fire at most one notification (exactly one whenever the
first changed anything). The two hypotheses record JavaScript reference
sanity: the current reference points into the registry and a newly
constructed connection object has a fresh identity. -/
theorem setConnection_notify_iff_change :
    ∀ (s : MgrState) (arg : SetArg) (fresh fresh2 : Nat),
      (∀ i, s.current = some i → i ∈ cidsOf s.connections) →
      fresh ∉ cidsOf s.connections →
      (((setConnection s arg fresh).2 = true ↔ (setConnection s arg fresh).1 ≠ s) ∧
        (setConnection (setConnection s arg fresh).1 arg fresh2).2 = false) := by
  intro s arg fresh fresh2 hcur hfr
  rcases arg with u | c | _
  · rcases hf : findByUri s.connections u with _ | c0
    · have heq1 : setConnection s (SetArg.byUri u) fresh = setConnByConn s (defaultConn fresh u) := by
        show (match findByUri s.connections u with
              | some c => setConnByConn s c
              | none => setConnByConn s (defaultConn fresh u)) =
            setConnByConn s (defaultConn fresh u)
        rw [hf]
      have h1 : ¬(s.current = some (defaultConn fresh u).cid) := by
        intro hc
        exact hfr (hcur fresh hc)
      have hip : setConnByConn s (defaultConn fresh u) =
          ({ s with connections := s.connections ++ [defaultConn fresh u],
                    current := some fresh }, true) := by
        unfold setConnByConn
        rw [if_neg h1]
        rw [show findByUri s.connections (defaultConn fresh u).uri = none from hf]
        rfl
      constructor
      · rw [heq1, hip]
        constructor
        · intro _ heq
          have hlen := congrArg (fun st : MgrState => st.connections.length) heq
          simp at hlen
        · intro _
          rfl
      · have hs1 : (setConnection s (SetArg.byUri u) fresh).1 =
            { s with connections := s.connections ++ [defaultConn fresh u],
                     current := some fresh } := by
          rw [heq1, hip]
        rw [hs1]
        have hfind2 : findByUri (s.connections ++ [defaultConn fresh u]) u =
            some (defaultConn fresh u) := findByUri_append_right _ _ _ hf rfl
        have heq2 : setConnection
            { s with connections := s.connections ++ [defaultConn fresh u],
                     current := some fresh } (SetArg.byUri u) fresh2 =
            setConnByConn
              { s with connections := s.connections ++ [defaultConn fresh u],
                       current := some fresh } (defaultConn fresh u) := by
          show (match findByUri (s.connections ++ [defaultConn fresh u]) u with
                | some c => setConnByConn
                    { s with connections := s.connections ++ [defaultConn fresh u],
                             current := some fresh } c
                | none => setConnByConn
                    { s with connections := s.connections ++ [defaultConn fresh u],
                             current := some fresh } (defaultConn fresh2 u)) =
              setConnByConn
                { s with connections := s.connections ++ [defaultConn fresh u],
                         current := some fresh } (defaultConn fresh u)
          rw [hfind2]
        rw [heq2]
        have hip3 : setConnByConn
            { s with connections := s.connections ++ [defaultConn fresh u],
                     current := some fresh } (defaultConn fresh u) =
            ({ s with connections := s.connections ++ [defaultConn fresh u],
                      current := some fresh }, false) := by
          unfold setConnByConn
          exact if_pos rfl
        rw [hip3]
    · have heq1 : setConnection s (SetArg.byUri u) fresh = setConnByConn s c0 := by
        show (match findByUri s.connections u with
              | some c => setConnByConn s c
              | none => setConnByConn s (defaultConn fresh u)) = setConnByConn s c0
        rw [hf]
      refine ⟨?_, ?_⟩
      · rw [heq1]
        exact setConnByConn_notify_iff s c0
      · have hs1 : (setConnection s (SetArg.byUri u) fresh).1 = (setConnByConn s c0).1 := by
          rw [heq1]
        rw [hs1]
        exact setConnection_byUri_found_second s u c0 fresh2 hf
  · exact ⟨setConnByConn_notify_iff s c, setConnByConn_second s c⟩
  · rcases hc : s.current with _ | i
    · have hip : setConnection s SetArg.undef fresh = (s, false) := by
        show (match s.current with
              | none => (s, false)
              | some _ => ({ s with current := none }, true)) = (s, false)
        rw [hc]
      have hip2 : setConnection s SetArg.undef fresh2 = (s, false) := by
        show (match s.current with
              | none => (s, false)
              | some _ => ({ s with current := none }, true)) = (s, false)
        rw [hc]
      constructor
      · rw [hip]
        simp
      · have hs1 : (setConnection s SetArg.undef fresh).1 = s := by
          rw [hip]
        rw [hs1, hip2]
    · have hip : setConnection s SetArg.undef fresh = ({ s with current := none }, true) := by
        show (match s.current with
              | none => (s, false)
              | some _ => ({ s with current := none }, true)) = ({ s with current := none }, true)
        rw [hc]
      constructor
      · rw [hip]
        constructor
        · intro _ heq
          have hc2 := congrArg MgrState.current heq
          simp only at hc2
          rw [hc] at hc2
          cases hc2
        · intro _
          rfl
      · have hs1 : (setConnection s SetArg.undef fresh).1 = { s with current := none } := by
          rw [hip]
        rw [hs1]
        rfl

/-- Witness: starting from the empty manager, selecting a new URI fires the
notification (the state changed) and repeating the call fires nothing. -/
theorem setConnection_notify_iff_change_witness :
    (((setConnection setDemoState (SetArg.byUri missingUri) 5).2 = true ↔
       (setConnection setDemoState (SetArg.byUri missingUri) 5).1 ≠ setDemoState) ∧
      (setConnection (setConnection setDemoState (SetArg.byUri missingUri) 5).1
        (SetArg.byUri missingUri) 6).2 = false) :=
  setConnection_notify_iff_change setDemoState (SetArg.byUri missingUri) 5 6
    (by intro i h; cases h) (by decide)

theorem updateCred_uris (conns : List Conn) (i : Nat) (u p : Option String) :
    urisOf (updateCred conns i u p) = urisOf conns := by
  unfold urisOf updateCred
  rw [List.map_map]
  refine List.map_congr_left ?_
  intro a _
  by_cases h : (a.cid == i) = true
  · simp only [Function.comp, if_pos h]
  · simp only [Function.comp, if_neg h]

theorem findByUri_none_not_mem (conns : List Conn) (u : String)
    (h : findByUri conns u = none) : u ∉ urisOf conns := by
  intro hmem
  obtain ⟨a, ha, hau⟩ := List.mem_map.1 hmem
  unfold findByUri at h
  have h2 := List.find?_eq_none.1 h a ha
  rw [hau] at h2
  exact h2 (beq_self_eq_true u)

theorem urisOf_append_nodup (conns : List Conn) (c : Conn)
    (hn : (urisOf conns).Nodup) (hx : c.uri ∉ urisOf conns) :
    (urisOf (conns ++ [c])).Nodup := by
  unfold urisOf at hn hx ⊢
  rw [List.map_append]
  simp [List.nodup_append, hn, hx]

theorem setConnByConn_uris_nodup (s : MgrState) (c : Conn)
    (h : (urisOf s.connections).Nodup) :
    (urisOf (setConnByConn s c).1.connections).Nodup := by
  by_cases h1 : s.current = some c.cid
  · have hip : setConnByConn s c = (s, false) := by
      unfold setConnByConn
      rw [if_pos h1]
    rw [hip]
    exact h
  · rcases hf : findByUri s.connections c.uri with _ | prev
    · have hip : setConnByConn s c =
          ({ s with connections := s.connections ++ [c], current := some c.cid }, true) := by
        unfold setConnByConn
        rw [if_neg h1, hf]
      rw [hip]
      exact urisOf_append_nodup _ _ h (findByUri_none_not_mem _ _ hf)
    · by_cases hcond : s.current ≠ some prev.cid ∨ prev.username ≠ c.username
      · have hip : setConnByConn s c =
            ({ s with connections := updateCred s.connections prev.cid c.username c.password,
                      current := some prev.cid }, true) := by
          unfold setConnByConn
          rw [if_neg h1, hf]
          exact if_pos hcond
        rw [hip]
        show (urisOf (updateCred s.connections prev.cid c.username c.password)).Nodup
        rw [updateCred_uris]
        exact h
      · have hip : setConnByConn s c = (s, false) := by
          unfold setConnByConn
          rw [if_neg h1, hf]
          exact if_neg hcond
        rw [hip]
        exact h

theorem setConnByConn_uris_of_found (s : MgrState) (c : Conn)
    (h : (findByUri s.connections c.uri).isSome = true) :
    urisOf (setConnByConn s c).1.connections = urisOf s.connections := by
  by_cases h1 : s.current = some c.cid
  · have hip : setConnByConn s c = (s, false) := by
      unfold setConnByConn
      rw [if_pos h1]
    rw [hip]
  · rcases hf : findByUri s.connections c.uri with _ | prev
    · rw [hf] at h
      cases h
    · by_cases hcond : s.current ≠ some prev.cid ∨ prev.username ≠ c.username
      · have hip : setConnByConn s c =
            ({ s with connections := updateCred s.connections prev.cid c.username c.password,
                      current := some prev.cid }, true) := by
          unfold setConnByConn
          rw [if_neg h1, hf]
          exact if_pos hcond
        rw [hip]
        exact updateCred_uris _ _ _ _
      · have hip : setConnByConn s c = (s, false) := by
          unfold setConnByConn
          rw [if_neg h1, hf]
          exact if_neg hcond
        rw [hip]

theorem updateConn_uris (conns : List Conn) (c2 : Conn)
    (hex : ∀ x ∈ conns, x.cid = c2.cid → x.uri = c2.uri) :
    urisOf (updateConn conns c2) = urisOf conns := by
  unfold urisOf updateConn
  rw [List.map_map]
  refine List.map_congr_left ?_
  intro x hx
  by_cases h : (x.cid == c2.cid) = true
  · simp only [Function.comp, if_pos h]
    exact (hex x hx (eq_of_beq h)).symm
  · simp only [Function.comp, if_neg h]

theorem setConnection_uris_nodup (s : MgrState) (arg : SetArg) (fresh : Nat)
    (hu : (urisOf s.connections).Nodup) :
    (urisOf (setConnection s arg fresh).1.connections).Nodup := by
  rcases arg with u | c | _
  · rcases hf : findByUri s.connections u with _ | c0
    · have heq1 : setConnection s (SetArg.byUri u) fresh = setConnByConn s (defaultConn fresh u) := by
        show (match findByUri s.connections u with
              | some c => setConnByConn s c
              | none => setConnByConn s (defaultConn fresh u)) =
            setConnByConn s (defaultConn fresh u)
        rw [hf]
      rw [heq1]
      exact setConnByConn_uris_nodup s (defaultConn fresh u) hu
    · have heq1 : setConnection s (SetArg.byUri u) fresh = setConnByConn s c0 := by
        show (match findByUri s.connections u with
              | some c => setConnByConn s c
              | none => setConnByConn s (defaultConn fresh u)) = setConnByConn s c0
        rw [hf]
      rw [heq1]
      exact setConnByConn_uris_nodup s c0 hu
  · exact setConnByConn_uris_nodup s c hu
  · rcases hc : s.current with _ | i
    · have hip : setConnection s SetArg.undef fresh = (s, false) := by
        show (match s.current with
              | none => (s, false)
              | some _ => ({ s with current := none }, true)) = (s, false)
        rw [hc]
      rw [hip]
      exact hu
    · have hip : setConnection s SetArg.undef fresh = ({ s with current := none }, true) := by
        show (match s.current with
              | none => (s, false)
              | some _ => ({ s with current := none }, true)) = ({ s with current := none }, true)
        rw [hc]
      rw [hip]
      exact hu

theorem step2_nodup_notify (s1 : MgrState) (chg : Bool) (excl : List Nat)
    (s2 : MgrState) (f : Bool) (n2 : Option Nat)
    (hu : (urisOf s1.connections).Nodup)
    (h : step2 s1 chg excl = Except.ok (s2, f, n2)) :
    (urisOf s2.connections).Nodup ∧ f = chg ∧
      (∀ j, n2 = some j → excl.contains j = false ∧ ∃ x, x ∈ s1.connections ∧ x.cid = j) := by
  unfold step2 at h
  rcases hb : getBestAvailable s1.connections excl with e | r
  · rw [hb] at h
    cases h
  · rcases r with _ | best
    · rw [hb] at h
      simp only at h
      injection h with h2
      injection h2 with e1 h3
      injection h3 with e2 e3
      subst e1
      subst e2
      subst e3
      exact ⟨hu, rfl, by intro j hj; cases hj⟩
    · rw [hb] at h
      simp only at h
      injection h with h2
      injection h2 with e1 h3
      injection h3 with e2 e3
      subst e1
      subst e2
      subst e3
      obtain ⟨hbm, hbh, hbe⟩ := getBestAvailable_winner_spec s1.connections excl best hb
      refine ⟨setConnByConn_uris_nodup s1 best hu, rfl, ?_⟩
      intro j hj
      by_cases h1 : s1.current = some best.cid
      · have hip : setConnByConn s1 best = (s1, false) := by
          unfold setConnByConn
          rw [if_pos h1]
        rw [hip] at hj
        simp at hj
      · rcases hf : findByUri s1.connections best.uri with _ | prev
        · exfalso
          unfold findByUri at hf
          exact (List.find?_eq_none.1 hf best hbm) (beq_self_eq_true best.uri)
        · by_cases hcond : s1.current ≠ some prev.cid ∨ prev.username ≠ best.username
          · have hip : setConnByConn s1 best =
                ({ s1 with connections := updateCred s1.connections prev.cid best.username best.password,
                           current := some prev.cid }, true) := by
              unfold setConnByConn
              rw [if_neg h1, hf]
              exact if_pos hcond
            rw [hip] at hj
            simp only [if_true] at hj
            have hj2 : prev.cid = j := by
              cases hj
              rfl
            have hpm : prev ∈ s1.connections := List.mem_of_find?_eq_some hf
            have hpu : prev.uri = best.uri := by
              unfold findByUri at hf
              have hb2 := List.find?_some hf
              exact eq_of_beq hb2
            have hpb : prev = best := by
              unfold urisOf at hu
              exact List.inj_on_of_nodup_map hu hpm hbm hpu
            subst hpb
            exact ⟨by rw [← hj2]; exact hbe, prev, hpm, hj2⟩
          · have hip : setConnByConn s1 best = (s1, false) := by
              unfold setConnByConn
              rw [if_neg h1, hf]
              exact if_neg hcond
            rw [hip] at hj
            simp at hj

theorem curConn_none_not_mem (s : MgrState) (hcc : curConn s = none) :
    ∀ x ∈ s.connections, s.current ≠ some x.cid := by
  intro x hx heq
  unfold curConn at hcc
  rw [heq] at hcc
  simp only at hcc
  exact (List.find?_eq_none.1 hcc x hx) (beq_self_eq_true x.cid)

theorem curConn_some_mem (s : MgrState) (c : Conn) (hcc : curConn s = some c) :
    c ∈ s.connections ∧ s.current = some c.cid := by
  unfold curConn at hcc
  rcases hc : s.current with _ | i
  · rw [hc] at hcc
    cases hcc
  · rw [hc] at hcc
    simp only at hcc
    have hmem := List.mem_of_find?_eq_some hcc
    have hbeq := List.find?_some hcc
    have hci : c.cid = i := eq_of_beq hbeq
    exact ⟨hmem, by rw [hci]⟩

theorem checkCycle_eq_none (s : MgrState) (hcc : curConn s = none) :
    checkCycle s = (if s.autoSwitch then step2 s false [] else Except.ok (s, false, none)) := by
  unfold checkCycle
  rw [hcc]

theorem checkCycle_eq_some_err (s : MgrState) (c : Conn)
    (hcc : curConn s = some c) (htg : c.checkTarget = none) :
    checkCycle s = Except.error JsErr.transportError := by
  have hck : checkConn c = Except.error JsErr.transportError := by
    unfold checkConn
    rw [htg]
  have he : checkCycle s =
      (match checkConn c with
       | Except.error e => Except.error e
       | Except.ok (c2, changed) =>
           if s.autoSwitch && !(c2.online == some true && c2.authStatus != some false) then
             step2 { s with connections := updateConn s.connections c2 } changed [c2.cid]
           else Except.ok ({ s with connections := updateConn s.connections c2 }, changed, none)) := by
    unfold checkCycle
    rw [hcc]
  rw [he, hck]

theorem checkCycle_eq_some (s : MgrState) (c : Conn) (o a : Option Bool)
    (hcc : curConn s = some c) (htg : c.checkTarget = some (o, a)) :
    checkCycle s =
      (if s.autoSwitch && !((o == some true) && (a != some false)) then
        step2 { s with connections := updateConn s.connections { c with online := o, authStatus := a } }
          (!(c.online == o && c.authStatus == a)) [c.cid]
      else
        Except.ok ({ s with connections := updateConn s.connections { c with online := o, authStatus := a } },
          !(c.online == o && c.authStatus == a), none)) := by
  have hck : checkConn c = Except.ok ({ c with online := o, authStatus := a },
      !(c.online == o && c.authStatus == a)) := by
    unfold checkConn
    rw [htg]
  have he : checkCycle s =
      (match checkConn c with
       | Except.error e => Except.error e
       | Except.ok (c2, changed) =>
           if s.autoSwitch && !(c2.online == some true && c2.authStatus != some false) then
             step2 { s with connections := updateConn s.connections c2 } changed [c2.cid]
           else Except.ok ({ s with connections := updateConn s.connections c2 }, changed, none)) := by
    unfold checkCycle
    rw [hcc]
  rw [he, hck]

theorem updateConn_check_uris (s : MgrState) (c : Conn) (o a : Option Bool)
    (hcid : (cidsOf s.connections).Nodup)
    (hcm : c ∈ s.connections) :
    urisOf (updateConn s.connections { c with online := o, authStatus := a }) =
      urisOf s.connections := by
  refine updateConn_uris _ _ ?_
  intro x hx hxc
  have hxec : x = c := by
    unfold cidsOf at hcid
    exact List.inj_on_of_nodup_map hcid hx hcm hxc
  rw [hxec]

/-- C8: URI uniqueness is an invariant of the manager. In order: adding a
connection whose URI is already registered throws the duplicate-URI
`MoneroError` and leaves the state unchanged; `addConnection` preserves URI
uniqueness; `removeConnection` never changes the state (on a registered URI
it dies on the unbound `connections` identifier before mutating, and on an
unknown URI it throws, so uniqueness is trivially preserved);
`setConnection` preserves URI uniqueness; `setConnection` with a connection
object whose URI is already registered does not register a new entry (the
multiset of registered URIs is unchanged — only credentials and the current
reference may change); and a check cycle preserves URI uniqueness. -/
theorem uri_uniqueness_invariant :
    ∀ (s : MgrState) (c : Conn) (u : String) (arg : SetArg) (fresh : Nat)
      (s2 : MgrState) (f1 : Bool) (n2 : Option Nat),
      (urisOf s.connections).Nodup →
      (((∃ a, a ∈ s.connections ∧ a.uri = c.uri) →
          addConnection s c = (s, some JsErr.duplicateUriError)) ∧
        (urisOf (addConnection s c).1.connections).Nodup ∧
        (removeConnection s u).1 = s ∧
        (urisOf (setConnection s arg fresh).1.connections).Nodup ∧
        ((findByUri s.connections c.uri).isSome = true →
          urisOf (setConnByConn s c).1.connections = urisOf s.connections) ∧
        ((cidsOf s.connections).Nodup → checkCycle s = Except.ok (s2, f1, n2) →
          (urisOf s2.connections).Nodup)) := by
  intro s c u arg fresh s2 f1 n2 hu
  refine ⟨?_, ?_, ?_, setConnection_uris_nodup s arg fresh hu,
          setConnByConn_uris_of_found s c, ?_⟩
  · rintro ⟨a, ha, hau⟩
    have hany : (s.connections.any fun x => x.uri == c.uri) = true :=
      List.any_eq_true.2 ⟨a, ha, beq_iff_eq.2 hau⟩
    unfold addConnection
    rw [if_pos hany]
  · by_cases hany : (s.connections.any fun x => x.uri == c.uri) = true
    · have hip : addConnection s c = (s, some JsErr.duplicateUriError) := by
        unfold addConnection
        rw [if_pos hany]
      rw [hip]
      exact hu
    · have hip : addConnection s c = ({ s with connections := s.connections ++ [c] }, none) := by
        unfold addConnection
        rw [if_neg hany]
      rw [hip]
      refine urisOf_append_nodup _ _ hu ?_
      intro hmem
      obtain ⟨x, hx, hxu⟩ := List.mem_map.1 hmem
      simp only [Bool.not_eq_true, List.any_eq_false] at hany
      have h1 := hany x hx
      rw [beq_iff_eq.2 hxu] at h1
      cases h1
  · rcases hfind : findByUri s.connections u with _ | x
    · have hip : removeConnection s u = (s, some JsErr.unknownUriError) := by
        unfold removeConnection
        rw [hfind]
      rw [hip]
    · have hip : removeConnection s u = (s, some JsErr.referenceErrorConnections) := by
        unfold removeConnection
        rw [hfind]
      rw [hip]
  · intro hcid hcy
    rcases hcc : curConn s with _ | c1
    · rw [checkCycle_eq_none s hcc] at hcy
      by_cases hA : s.autoSwitch = true
      · rw [if_pos hA] at hcy
        exact (step2_nodup_notify s false [] s2 f1 n2 hu hcy).1
      · rw [if_neg hA] at hcy
        injection hcy with h2
        injection h2 with e1 h3
        subst e1
        exact hu
    · rcases htg : c1.checkTarget with _ | ⟨o, a⟩
      · rw [checkCycle_eq_some_err s c1 hcc htg] at hcy
        cases hcy
      · obtain ⟨hcm, hcur⟩ := curConn_some_mem s c1 hcc
        have hs1u := updateConn_check_uris s c1 o a hcid hcm
        rw [checkCycle_eq_some s c1 o a hcc htg] at hcy
        by_cases hsw : (s.autoSwitch && !((o == some true) && (a != some false))) = true
        · rw [if_pos hsw] at hcy
          have hu1 : (urisOf (updateConn s.connections
              { c1 with online := o, authStatus := a })).Nodup := by
            rw [hs1u]
            exact hu
          exact (step2_nodup_notify _ _ _ s2 f1 n2 hu1 hcy).1
        · rw [if_neg hsw] at hcy
          injection hcy with h2
          injection h2 with e1 h3
          subst e1
          have hgoal : (urisOf (updateConn s.connections
              { c1 with online := o, authStatus := a })).Nodup := by
            rw [hs1u]
            exact hu
          exact hgoal

/-- Witness: the uniqueness facts at a concrete three-connection registry
(adding a duplicate of A fails and changes nothing; removal, selection and a
check cycle leave uniqueness intact). -/
theorem uri_uniqueness_invariant_witness :
    addConnection rankDemoState rankDemoA = (rankDemoState, some JsErr.duplicateUriError) ∧
    (urisOf (addConnection rankDemoState rankDemoA).1.connections).Nodup ∧
    (removeConnection rankDemoState missingUri).1 = rankDemoState ∧
    (urisOf (setConnection rankDemoState SetArg.undef 9).1.connections).Nodup ∧
    urisOf (setConnByConn rankDemoState rankDemoA).1.connections =
      urisOf rankDemoState.connections ∧
    (urisOf rankDemoState.connections).Nodup := by
  have h := uri_uniqueness_invariant rankDemoState rankDemoA missingUri SetArg.undef 9
    rankDemoState false none (by decide)
  exact ⟨h.1 ⟨rankDemoA, by decide, rfl⟩, h.2.1, h.2.2.1, h.2.2.2.1,
         h.2.2.2.2.1 (by decide), h.2.2.2.2.2 (by decide) (by decide)⟩

/-- C7: in a check cycle, the step-1 notification — the one passing the
identity-unchanged current connection to `_onConnectionChanged` — fires
exactly when a current connection exists and its health check reported a
changed effective health state (`step1Expected`); and any step-2
notification (fired through `setConnection` after an auto-switch probe)
announces a connection identity different from the current one, so there is
never a Connected-to-Connected notification for an unchanged health state.
The hypotheses are the registry invariants (unique URIs and identities). -/
theorem checkCycle_notifies_on_health_change :
    ∀ (s s2 : MgrState) (f1 : Bool) (n2 : Option Nat),
      (urisOf s.connections).Nodup →
      (cidsOf s.connections).Nodup →
      checkCycle s = Except.ok (s2, f1, n2) →
      (f1 = step1Expected s ∧ notifiesOtherOnly n2 s.current) := by
  intro s s2 f1 n2 hu hcid hcy
  rcases hcc : curConn s with _ | c
  · have hexp : step1Expected s = false := by
      unfold step1Expected
      rw [hcc]
    rw [checkCycle_eq_none s hcc] at hcy
    by_cases hA : s.autoSwitch = true
    · rw [if_pos hA] at hcy
      obtain ⟨_, hf, hn⟩ := step2_nodup_notify s false [] s2 f1 n2 hu hcy
      refine ⟨by rw [hf, hexp], ?_⟩
      intro j hj
      obtain ⟨_, x, hx, hxj⟩ := hn j hj
      rw [← hxj]
      exact curConn_none_not_mem s hcc x hx
    · rw [if_neg hA] at hcy
      injection hcy with h2
      injection h2 with e1 h3
      injection h3 with e2 e3
      subst e2
      subst e3
      exact ⟨hexp.symm, by intro j hj; cases hj⟩
  · rcases htg : c.checkTarget with _ | ⟨o, a⟩
    · rw [checkCycle_eq_some_err s c hcc htg] at hcy
      cases hcy
    · obtain ⟨hcm, hcur⟩ := curConn_some_mem s c hcc
      have hexp : step1Expected s = !(c.online == o && c.authStatus == a) := by
        unfold step1Expected
        rw [hcc]
        show checkChangedB c = !(c.online == o && c.authStatus == a)
        unfold checkChangedB
        rw [htg]
      rw [checkCycle_eq_some s c o a hcc htg] at hcy
      by_cases hsw : (s.autoSwitch && !((o == some true) && (a != some false))) = true
      · rw [if_pos hsw] at hcy
        have hu1 : (urisOf (updateConn s.connections
            { c with online := o, authStatus := a })).Nodup := by
          rw [updateConn_check_uris s c o a hcid hcm]
          exact hu
        obtain ⟨_, hf, hn⟩ := step2_nodup_notify _ _ _ s2 f1 n2 hu1 hcy
        refine ⟨by rw [hf, hexp], ?_⟩
        intro j hj heq
        obtain ⟨hcont, x, hx, hxj⟩ := hn j hj
        rw [hcur] at heq
        have hjc : j = c.cid := (Option.some_inj.1 heq).symm
        have hcont2 : (([c.cid] : List Nat).contains j) = true := by
          rw [hjc]
          simp
        rw [hcont2] at hcont
        cases hcont
      · rw [if_neg hsw] at hcy
        injection hcy with h2
        injection h2 with e1 h3
        injection h3 with e2 e3
        subst e2
        subst e3
        exact ⟨hexp.symm, by intro j hj; cases hj⟩

/-- Witness: one cycle on a current connection whose check flips it from
online to offline fires the step-1 notification (health state changed) and
no step-2 notification. -/
theorem checkCycle_notifies_on_health_change_witness :
    (true = step1Expected cycleDemoState ∧
      notifiesOtherOnly none cycleDemoState.current) :=
  checkCycle_notifies_on_health_change cycleDemoState cycleDemoAfter true none
    (by decide) (by decide) (by decide)
